import Mathlib

/-!
Verification of the flow-rate analysis pipeline of the pedestrian-simulation
repository (`visualization/flow_rate.py`).

The Python source is shallowly embedded below:
* floats carried through the analysis are modelled as exact rationals `ℚ`
  (the sample interval `dt = 0.025` is exactly `1/40`);
* Python `int` values are `ℤ` (or `ℕ` for indices and counts);
* code that raises an exception (`range` with zero step, indexing an empty
  `np.where` result, `float`/`int` conversion failures, out-of-range list
  indexing) is modelled with `Option`, `none` standing for the raised
  exception;
* `np.mean` is the sum divided by the length; `np.std` (with its default
  `ddof = 0`) is the square root of the population variance, so the
  embedding carries the population variance (an exact rational) and
  theorems about the standard deviation speak of `Real.sqrt` of that
  variance;
* `np.polyfit(xs, ys, 1)` is the ordinary-least-squares degree-1 fit,
  embedded by its closed-form normal-equation solution.
-/

namespace FlowRate

/-- Sample interval `dt = 0.025` seconds (line 108 of `flow_rate.py`),
an exact rational. -/
def dt : ℚ := 0.025

/-- Window length in samples: `time_window_steps = int(10 / dt)`
(line 109).  Python `int()` truncates toward zero, which on the
positive value `10 / dt` is the floor. -/
def time_window_steps : ℕ := (⌊(10 : ℚ) / dt⌋).toNat

/-- Window step in samples: `time_steps = int(1 / dt)` (line 110). -/
def time_steps : ℕ := (⌊(1 : ℚ) / dt⌋).toNat

/-- Python `range(0, stop, step)` for a positive `step` (the `stop` may be
negative, giving the empty list, hence the `ℤ` argument and the clamp
`Int.toNat`).  The element count is `⌈stop / step⌉`. -/
def pyRangeL (stop : ℤ) (step : ℕ) : List ℕ :=
  List.range' 0 ((stop.toNat + step - 1) / step) step

/-- Python `range(0, stop, step)` including the `step = 0` case, where
CPython raises `ValueError: range() arg 3 must not be zero`; the raised
exception is modelled as `none`. -/
def pyRange (stop : ℤ) (step : ℕ) : Option (List ℕ) :=
  if step = 0 then none else some (pyRangeL stop step)

/-- The index of the first element satisfying `p`:
`np.where(cond)[0][0]`, which raises `IndexError` (here `none`) when no
element satisfies `p` (lines 102 and 157). -/
def npWhereFirst (p : α → Bool) : List α → Option ℕ
  | [] => none
  | a :: as => if p a then some 0 else (npWhereFirst p as).map (fun i => i + 1)

/-- The index of the last element satisfying `p`:
`np.where(cond)[0][-1]`, raising `IndexError` (`none`) when no element
satisfies `p` (line 103). -/
def npWhereLast (p : α → Bool) (l : List α) : Option ℕ :=
  (npWhereFirst p l.reverse).map (fun i => l.length - 1 - i)

/-- `np.mean` of a list of rationals: sum over length (an empty list gives
`0/0 = 0` here, where NumPy would give `nan`; every use below is on a
list shown to be produced by the code, and emptiness is tracked
separately). -/
def npMean (l : List ℚ) : ℚ := l.sum / l.length

/-- Population variance, the square of `np.std(l)` with NumPy's default
`ddof = 0` (divide by the length, not length − 1).  The code stores the
standard deviation `np.std(l) = Real.sqrt (npVarPop l)`; since that square
root is irrational the embedding carries the variance. -/
def npVarPop (l : List ℚ) : ℚ :=
  (l.map (fun x => (x - npMean l) ^ 2)).sum / l.length

/-- Window start indices of the sliding-window loop (line 115):
`range(0, len(stationary_times) - time_window_steps + 1, time_steps)`.
The subtraction is over `ℤ` because the Python expression
`len - 400 + 1` may be negative (empty range). -/
def windowStarts (n : ℕ) : List ℕ :=
  pyRangeL ((n : ℤ) - time_window_steps + 1) time_steps

/-- One windowed flow-rate sample (lines 116-118):
`exits = stationary_exits[k : k + time_window_steps]` followed by
`(exits[-1] - exits[0]) / (time_window_steps * dt)`.  Python list slicing
clips at the end of the list; `[-1]`/`[0]` are the last/first elements of
the slice.  In every reachable use the slice has exactly
`time_window_steps` elements, so the `0` fallbacks of `getLastD`/`headD`
are never consulted. -/
def windowSample (exits : List ℤ) (k : ℕ) : ℚ :=
  let w := (exits.drop k).take time_window_steps
  ((w.getLastD 0 - w.headD 0 : ℤ) : ℚ) / ((time_window_steps : ℚ) * dt)

/-- The full windowed flow-rate series of one trial (lines 112-119). -/
def flowSamples (times : List ℚ) (exits : List ℤ) : List ℚ :=
  (windowStarts times.length).map (windowSample exits)

/-- The recorded window start times (line 120): `times.append(k * dt)`. -/
def sampleTimes (times : List ℚ) : List ℚ :=
  (windowStarts times.length).map (fun k => (k : ℚ) * dt)

/-- The trial's scalar flow rate (line 127): `np.mean(flow_rates)`. -/
def trialFlowRate (times : List ℚ) (exits : List ℤ) : ℚ :=
  npMean (flowSamples times exits)

/-- Index of the first time `≥ 10` (line 102):
`np.where(times >= 10)[0][0]`. -/
def lowerBoundIdx (times : List ℚ) : Option ℕ :=
  npWhereFirst (fun t => decide ((10 : ℚ) ≤ t)) times

/-- Index of the last time `≤ 45` (line 103):
`np.where(times <= 45)[0][-1]`. -/
def upperBoundIdx (times : List ℚ) : Option ℕ :=
  npWhereLast (fun t => decide (t ≤ (45 : ℚ))) times

/-- One trial's estimator run (lines 102-119): the two bound lookups are
executed (each can raise `IndexError`, i.e. `none`) but their results are
never used afterwards — the window loop runs over the whole series. -/
def runTrial (times : List ℚ) (exits : List ℤ) : Option (List ℚ) := do
  let _ ← lowerBoundIdx times
  let _ ← upperBoundIdx times
  some (flowSamples times exits)

/-- A whitespace-separated token of a log line.  `asFloat` models Python
`float(tok)` and `asInt` models `int(tok)`: `none` is the raised
`ValueError` when the token does not convert. -/
structure Token where
  asFloat : Option ℚ
  asInt : Option ℤ

/-- Parsing one log line (lines 95-97): `data = line.split()`,
`time = float(data[0])`, `cumulative_exits = int(data[1])`.  Indexing
`data[0]`/`data[1]` raises `IndexError` (`none`) when the line has fewer
than two tokens; tokens beyond the first two are never touched. -/
def parseLine : List Token → Option (ℚ × ℤ)
  | t0 :: t1 :: _ => do
      let time ← t0.asFloat
      let ex ← t1.asInt
      some (time, ex)
  | _ => none

/-- Parsing the whole log (lines 94-99), appending each line's pair to the
`times` and `exits` arrays; the first failing line aborts the trial. -/
def parseLog : List (List Token) → Option (List ℚ × List ℤ)
  | [] => some ([], [])
  | l :: ls => do
      let p ← parseLine l
      let rest ← parseLog ls
      some (p.1 :: rest.1, p.2 :: rest.2)

/-- The per-trial pipeline of `run_simulations` (lines 94-119): parse the
raw log, then run the stationary-window estimator on the parsed arrays
exactly as parsed. -/
def trialPipeline (lines : List (List Token)) : Option (List ℚ) := do
  let p ← parseLog lines
  runTrial p.1 p.2

/-- The per-configuration summary (lines 130-131): mean and standard
deviation of the `rounds` per-trial flow rates,
`(np.mean(flow_rates), np.std(flow_rates))`; the second component is
carried as the variance (see `npVarPop`). -/
def configSummary (rates : List ℚ) : ℚ × ℚ :=
  (npMean rates, npVarPop rates)

/-- The checkpoint list of `exit_rate_comp` (lines 147-155):
`exits_step = max_exits // 20` followed by
`range(0, max_exits + 1, exits_step)`. -/
def checkpoints (pop : ℕ) : Option (List ℕ) :=
  pyRange ((pop : ℤ) + 1) (pop / 20)

/-- The largest checkpoint actually produced for population `pop`:
the largest multiple of `pop / 20` that is at most `pop`. -/
def maxCheckpoint (pop : ℕ) : ℕ :=
  (pop / 20) * (pop / (pop / 20))

/-- One trial's time for one checkpoint (lines 157-161):
`index = np.where(exits >= exit_count)[0][0]` (raising `IndexError`,
i.e. `none`, when the trial never reaches the checkpoint) followed by
`times[index]`. -/
def trialTimeAt (times : List ℚ) (exits : List ℤ) (c : ℕ) : Option ℚ :=
  (npWhereFirst (fun e => decide ((c : ℤ) ≤ e)) exits).bind
    (fun i => times[i]?)

/-- Collecting an `Option`-valued map over a list, aborting at the first
`none` (the embedding of a Python loop whose body may raise). -/
def mapOpt (f : α → Option β) : List α → Option (List β)
  | [] => some []
  | a :: as =>
      (f a).bind (fun b => (mapOpt f as).map (fun bs => b :: bs))

/-- The per-checkpoint mean times of the cross-trial aligner
(lines 147-172) for one configuration: for each checkpoint (in increasing
order) the mean over the trials of the first time the trial's cumulative
exits reach the checkpoint.  The Python code fills the dictionary
`average_times` trial by trial and then averages per key; keys are
traversed in insertion order, which is checkpoint order, and each key's
list holds the trials' times in trial order, so the per-key lists agree
with this checkpoint-major traversal. -/
def checkpointMeans (trials : List (List ℚ × List ℤ)) (pop : ℕ) :
    Option (List ℚ) := do
  let cps ← checkpoints pop
  mapOpt (fun c =>
    (mapOpt (fun tr => trialTimeAt tr.1 tr.2 c) trials).map npMean) cps

/-- `np.polyfit(xs, ys, 1)` (line 40): the ordinary-least-squares degree-1
fit `(slope, intercept)`, by the closed-form normal-equation solution. -/
def polyfit1 (xs ys : List ℚ) : ℚ × ℚ :=
  let n : ℚ := xs.length
  let sx := xs.sum
  let sy := ys.sum
  let sxx := (xs.map (fun x => x ^ 2)).sum
  let sxy := (List.zipWith (fun a b => a * b) xs ys).sum
  let slope := (n * sxy - sx * sy) / (n * sxx - sx ^ 2)
  (slope, (sy - slope * sx) / n)

/-- The fitted curve (line 43): `slope * np.array(xs) + intercept`. -/
def fittedCurve (xs : List ℚ) (slope intercept : ℚ) : List ℚ :=
  xs.map (fun x => slope * x + intercept)

/-- Sum of squared residuals of the line `y = a·x + b` on the points
`zip xs ys` (the objective that ordinary least squares minimises). -/
def ssr (xs ys : List ℚ) (a b : ℚ) : ℚ :=
  (List.zipWith (fun x y => (y - (a * x + b)) ^ 2) xs ys).sum

/-- Reference window starts, following the spec's words (§4.3, step 2):
all indices that start at 0, advance in steps of `step_length` samples,
and satisfy `start + window_length ≤ len(times)`. -/
def specWindowStarts (n : ℕ) : List ℕ :=
  (List.range (n + 1)).filter
    (fun k => decide (k % time_steps = 0) && decide (k + time_window_steps ≤ n))

/-- Reference windowed sample, following the spec's words (§4.3, step 3):
`(exits[window_end] − exits[window_start]) / (window_length × sample_interval)`
with `window_end = start + window_length − 1`. -/
def specWindowSample (exits : List ℤ) (k : ℕ) : ℚ :=
  ((exits.getD (k + time_window_steps - 1) 0 - exits.getD k 0 : ℤ) : ℚ) /
    ((time_window_steps : ℚ) * dt)

/-- Reference windowed series, following the spec's words. -/
def specFlowSamples (times : List ℚ) (exits : List ℤ) : List ℚ :=
  (specWindowStarts times.length).map (specWindowSample exits)

/-- Reference recorded window start times, following the spec's words
(§4.3, step 3): `window_start_time = start_index × sample_interval`. -/
def specSampleTimes (times : List ℚ) : List ℚ :=
  (specWindowStarts times.length).map (fun k => (k : ℚ) * dt)

/-- An event log with `exits[i] = i`: the cumulative-exit sequence of the
constant-rate sanity check. -/
def idExits (n : ℕ) : List ℤ :=
  (List.range n).map (fun i : ℕ => (i : ℤ))

/-- Entry times spaced uniformly at `dt`. -/
def uniformTimes (n : ℕ) : List ℚ :=
  (List.range n).map (fun i : ℕ => (i : ℚ) * dt)

/-- A 400-entry time series that avoids the stationary interval entirely:
ten entries `0, 1, ..., 9` (all `< 10`) followed by 390 entries
`46, 47, ..., 435` (all `> 45`). -/
def gapTimes : List ℚ :=
  (List.range 10).map (fun i : ℕ => (i : ℚ)) ++
    (List.range 390).map (fun i : ℕ => 46 + (i : ℚ))

end FlowRate

namespace FlowRate

/-! ## Basic facts about the embedded constants and ranges -/

@[simp] theorem dt_eq : dt = 1 / 40 := by norm_num [dt]

@[simp] theorem time_window_steps_eq : time_window_steps = 400 := by
  norm_num [time_window_steps, dt]
  decide

@[simp] theorem time_steps_eq : time_steps = 40 := by
  norm_num [time_steps, dt]
  decide

/-- Membership in `range' 0 ⌈m/step⌉ step`: exactly the multiples of
`step` below `m`. -/
theorem mem_range'_ceil_iff (m step : ℕ) (hstep : 0 < step) (c : ℕ) :
    c ∈ List.range' 0 ((m + step - 1) / step) step ↔ step ∣ c ∧ c < m := by
  rw [List.mem_range']
  constructor
  · rintro ⟨i, hi, rfl⟩
    refine ⟨⟨i, by ring⟩, ?_⟩
    have e1 : (i + 1) * step ≤ (m + step - 1) / step * step :=
      Nat.mul_le_mul_right _ hi
    have e2 : (m + step - 1) / step * step ≤ m + step - 1 :=
      Nat.div_mul_le_self _ _
    have e3 : (i + 1) * step = step * i + step := by ring
    omega
  · rintro ⟨⟨k, rfl⟩, hlt⟩
    refine ⟨k, ?_, by ring⟩
    have e1 : k * step = step * k := by ring
    have e2 : k * step ≤ m - 1 := by omega
    have e3 : k ≤ (m - 1) / step := (Nat.le_div_iff_mul_le hstep).mpr e2
    have e4 : (m - 1 + step) / step = (m - 1) / step + 1 :=
      Nat.add_div_right _ hstep
    have e5 : m - 1 + step = m + step - 1 := by omega
    rw [e5] at e4
    omega

/-- Membership in the embedded Python range, for a positive step. -/
theorem mem_pyRangeL_iff (stop : ℤ) (step : ℕ) (hstep : 0 < step) (c : ℕ) :
    c ∈ pyRangeL stop step ↔ step ∣ c ∧ (c : ℤ) < stop := by
  unfold pyRangeL
  rw [mem_range'_ceil_iff _ _ hstep]
  constructor <;> rintro ⟨h1, h2⟩ <;> exact ⟨h1, by omega⟩

/-- For `pop ≥ 20` the checkpoint step `pop / 20` is positive and the
checkpoint list is produced. -/
theorem checkpoints_eq_of_ge (pop : ℕ) (h : 20 ≤ pop) :
    checkpoints pop = some (pyRangeL ((pop : ℤ) + 1) (pop / 20)) := by
  have hs : pop / 20 ≠ 0 := by
    have h1 : 1 ≤ pop / 20 := (Nat.one_le_div_iff (by norm_num)).mpr h
    omega
  simp [checkpoints, pyRange, hs]

/-! ## C3 — checkpoint arithmetic -/

/-- CLAIM C3 (counterexample): with `population_size = 41` the step is
`41 // 20 = 2` and the checkpoint list is `0, 2, ..., 40`; the population
size `41` itself is *not* among the checkpoints, contradicting the claim
that it always is. -/
theorem c3_counterexample :
    ∃ l, checkpoints 41 = some l ∧ 20 ≤ 41 ∧ 41 ∉ l := by
  refine ⟨pyRangeL 42 2, by decide, by decide, by decide⟩

/-- CLAIM C3 (amended): for `population_size ≥ 20` the checkpoints are
exactly the multiples of `s = population_size // 20` that are at most
`population_size` (i.e. `0, s, 2s, ...` up to the largest multiple of `s`
not exceeding `population_size`); `population_size` itself is a checkpoint
iff `s` divides it. -/
theorem c3_checkpoints_are_multiples (pop : ℕ) (h : 20 ≤ pop) :
    ∃ l, checkpoints pop = some l ∧
      (∀ c, c ∈ l ↔ (pop / 20) ∣ c ∧ c ≤ pop) ∧
      (pop ∈ l ↔ (pop / 20) ∣ pop) := by
  have hs : 0 < pop / 20 := (Nat.one_le_div_iff (by norm_num)).mpr h
  refine ⟨_, checkpoints_eq_of_ge pop h, ?_, ?_⟩
  · intro c
    rw [mem_pyRangeL_iff _ _ hs]
    constructor <;> rintro ⟨h1, h2⟩ <;> exact ⟨h1, by omega⟩
  · rw [mem_pyRangeL_iff _ _ hs]
    constructor
    · rintro ⟨h1, _⟩
      exact h1
    · intro h1
      exact ⟨h1, by omega⟩

/-- Witness for the amended C3 at `population_size = 40`. -/
theorem c3_checkpoints_are_multiples_witness :
    ∃ l, checkpoints 40 = some l ∧
      (∀ c, c ∈ l ↔ (40 / 20) ∣ c ∧ c ≤ 40) ∧
      (40 ∈ l ↔ (40 / 20) ∣ 40) :=
  c3_checkpoints_are_multiples 40 (by norm_num)

/-! ## C4 — degenerate checkpoint step -/

/-- CLAIM C4: when `population_size < 20` the checkpoint step
`population_size // 20` is `0` and `range(0, pop + 1, 0)` raises
`ValueError` (modelled as `none`): the configuration is rejected and no
zero-step or non-terminating loop is ever executed (the loop body never
runs, and the aligner produces no output for any trials). -/
theorem c4_degenerate_step_rejected (pop : ℕ) (h : pop < 20) :
    checkpoints pop = none ∧
      ∀ trials, checkpointMeans trials pop = none := by
  have hs : pop / 20 = 0 := Nat.div_eq_of_lt h
  have hc : checkpoints pop = none := by simp [checkpoints, pyRange, hs]
  exact ⟨hc, fun trials => by simp [checkpointMeans, hc]⟩

/-- Witness for C4 at `population_size = 10`. -/
theorem c4_degenerate_step_rejected_witness :
    checkpoints 10 = none ∧
      ∀ trials, checkpointMeans trials 10 = none :=
  c4_degenerate_step_rejected 10 (by norm_num)

/-! ## C6 — parser error conditions -/

/-- CLAIM C6 (counterexample): a line with three tokens whose first two
convert is *accepted* (the parsed pair is returned), refuting the claim
that a line with more than two tokens is rejected. -/
theorem c6_counterexample :
    parseLine [⟨some 1, some 1⟩, ⟨some 2, some 2⟩, ⟨some 3, some 3⟩]
        = some (1, 2) ∧
      ([⟨some 1, some 1⟩, ⟨some 2, some 2⟩, ⟨some 3, some 3⟩] :
        List Token).length = 3 :=
  ⟨rfl, rfl⟩

/-- CLAIM C6 (amended): the parser fails on a line iff the line has fewer
than two tokens, or its first token does not convert to a real, or its
second token does not convert to an integer; tokens beyond the first two
are ignored, so a line with more than two tokens is *not* rejected. -/
theorem c6_parse_error_iff (line : List Token) :
    parseLine line = none ↔
      line.length < 2 ∨
      ∃ t0 t1 rest, line = t0 :: t1 :: rest ∧
        (t0.asFloat = none ∨ t1.asInt = none) := by
  match line with
  | [] =>
    refine iff_of_true rfl (Or.inl (by norm_num))
  | [t] =>
    refine iff_of_true rfl (Or.inl (by norm_num))
  | t0 :: t1 :: rest =>
    simp only [parseLine, List.length_cons]
    cases h0 : t0.asFloat with
    | none =>
      exact iff_of_true rfl (Or.inr ⟨t0, t1, rest, rfl, Or.inl h0⟩)
    | some x =>
      cases h1 : t1.asInt with
      | none =>
        exact iff_of_true rfl (Or.inr ⟨t0, t1, rest, rfl, Or.inr h1⟩)
      | some k =>
        refine iff_of_false (by simp) ?_
        rintro (hlen | ⟨s0, s1, r, heq, hbad⟩)
        · omega
        · cases heq
          rcases hbad with hb | hb
          · rw [h0] at hb
            exact Option.noConfusion hb
          · rw [h1] at hb
            exact Option.noConfusion hb

/-! ## C10 — the parser performs no validation -/

/-- CLAIM C10: whenever every line has at least two tokens, the first of
which converts to a real and the second to an integer, the parser accepts
the log and returns exactly the given values — no validation of sign or
monotonicity of times or exit counts is performed, tokens beyond the
first two are ignored, and the unvalidated arrays are handed unchanged to
the flow-rate computation. -/
theorem c10_no_validation (lines : List (List Token)) (vals : List (ℚ × ℤ))
    (h : List.Forall₂ (fun l v => ∃ t0 t1 rest, l = t0 :: t1 :: rest ∧
      t0.asFloat = some v.1 ∧ t1.asInt = some v.2) lines vals) :
    parseLog lines = some (vals.map Prod.fst, vals.map Prod.snd) ∧
    trialPipeline lines =
      runTrial (vals.map Prod.fst) (vals.map Prod.snd) := by
  have hp : parseLog lines = some (vals.map Prod.fst, vals.map Prod.snd) := by
    induction h with
    | nil => rfl
    | cons h1 h2 ih =>
      obtain ⟨t0, t1, rest, rfl, hf, hi⟩ := h1
      simp [parseLog, parseLine, hf, hi, ih]
  exact ⟨hp, by simp [trialPipeline, hp]⟩

/-- Witness for C10: a two-line log whose first line has a negative time,
three tokens and a larger exit count than the second line (times and
exits both decreasing) is accepted verbatim. -/
theorem c10_no_validation_witness :
    parseLog
        [[⟨some (-1), none⟩, ⟨none, some 5⟩, ⟨none, none⟩],
         [⟨some (-2), none⟩, ⟨none, some 3⟩]]
      = some (([(-1, 5), (-2, 3)] : List (ℚ × ℤ)).map Prod.fst,
              ([(-1, 5), (-2, 3)] : List (ℚ × ℤ)).map Prod.snd) ∧
    trialPipeline
        [[⟨some (-1), none⟩, ⟨none, some 5⟩, ⟨none, none⟩],
         [⟨some (-2), none⟩, ⟨none, some 3⟩]]
      = runTrial (([(-1, 5), (-2, 3)] : List (ℚ × ℤ)).map Prod.fst)
          (([(-1, 5), (-2, 3)] : List (ℚ × ℤ)).map Prod.snd) :=
  c10_no_validation _ _
    (List.Forall₂.cons ⟨_, _, _, rfl, rfl, rfl⟩
      (List.Forall₂.cons ⟨_, _, _, rfl, rfl, rfl⟩ List.Forall₂.nil))

/-! ## C7 — per-configuration mean and standard deviation -/

/-- CLAIM C7: for *every* list of `rounds = 3` per-trial rates, the
configuration summary is the arithmetic mean of the three rates and the
*population* variance/standard deviation (the divisor is `rounds = 3`,
not `rounds − 1`); consequently, whenever all three rates are equal the
variance, and hence the standard deviation `np.std = Real.sqrt` of it,
is `0`. -/
theorem c7_config_summary (rates : List ℚ) (hlen : rates.length = 3) :
    (configSummary rates).1 = rates.sum / 3 ∧
    (configSummary rates).2
      = (rates.map (fun r => (r - rates.sum / 3) ^ 2)).sum / 3 ∧
    ∀ x, (∀ r ∈ rates, r = x) →
      (configSummary rates).2 = 0 ∧
      Real.sqrt (configSummary rates).2 = 0 := by
  match rates, hlen with
  | [a, b, c], _ =>
    refine ⟨?_, ?_, ?_⟩
    · simp [configSummary, npMean]
    · simp [configSummary, npVarPop, npMean]
    · intro x hall
      have ha : a = x := hall a (by simp)
      have hb : b = x := hall b (by simp)
      have hc : c = x := hall c (by simp)
      rw [ha, hb, hc]
      have hv : (configSummary [x, x, x]).2 = 0 := by
        simp [configSummary, npVarPop, npMean]
        ring_nf
      refine ⟨hv, ?_⟩
      rw [hv]
      simp

/-- Witness for C7 at the rate list `[3, 5, 7]` (the unconditional
mean/variance conjuncts), whose std = 0 conjunct is conditional on the
rates being identical. -/
theorem c7_config_summary_witness :
    (configSummary [3, 5, 7]).1 = ([3, 5, 7] : List ℚ).sum / 3 ∧
    (configSummary [3, 5, 7]).2
      = (([3, 5, 7] : List ℚ).map
          (fun r => (r - ([3, 5, 7] : List ℚ).sum / 3) ^ 2)).sum / 3 ∧
    ∀ x, (∀ r ∈ ([3, 5, 7] : List ℚ), r = x) →
      (configSummary [3, 5, 7]).2 = 0 ∧
      Real.sqrt (configSummary [3, 5, 7]).2 = 0 :=
  c7_config_summary [3, 5, 7] (by norm_num)

/-! ## C9 — the linear trend fit -/

/-- CLAIM C9: the degree-1 fit on the collinear points
`(1,2), (2,4), (3,6)` recovers slope `2` and intercept `0` exactly (the
embedding works over `ℚ`, so "within floating-point tolerance" becomes
exact equality); the fitted curve evaluates `slope·x + intercept` at each
input, reproducing `[2, 4, 6]`; and the returned line minimises the sum
of squared residuals on these points. -/
theorem c9_linear_fit :
    polyfit1 [1, 2, 3] [2, 4, 6] = (2, 0) ∧
    fittedCurve [1, 2, 3] 2 0 = [2, 4, 6] ∧
    ∀ a b, ssr [1, 2, 3] [2, 4, 6] 2 0 ≤ ssr [1, 2, 3] [2, 4, 6] a b := by
  refine ⟨by norm_num [polyfit1], by norm_num [fittedCurve], ?_⟩
  intro a b
  have h0 : ssr [1, 2, 3] [2, 4, 6] 2 0 = 0 := by norm_num [ssr]
  have h1 : ssr [1, 2, 3] [2, 4, 6] a b
      = (2 - (a * 1 + b)) ^ 2 + (4 - (a * 2 + b)) ^ 2 + (6 - (a * 3 + b)) ^ 2 := by
    simp [ssr]
    ring
  rw [h0, h1]
  positivity

/-! ## Window machinery shared by C1, C2 and C5 -/

theorem time_steps_pos : 0 < time_steps := by
  rw [time_steps_eq]
  norm_num

theorem time_window_steps_pos : 0 < time_window_steps := by
  rw [time_window_steps_eq]
  norm_num

/-- Membership in the window-start list of the source loop. -/
theorem mem_windowStarts (n k : ℕ) :
    k ∈ windowStarts n ↔ time_steps ∣ k ∧ k + time_window_steps ≤ n := by
  unfold windowStarts
  rw [mem_pyRangeL_iff _ _ time_steps_pos]
  constructor <;> rintro ⟨h1, h2⟩ <;> exact ⟨h1, by omega⟩

/-- The slice `exits[k : k + time_window_steps]` seen through its first and
last elements, when the window is full. -/
theorem window_headD_getLastD (l : List ℤ) (k : ℕ)
    (h : k + time_window_steps ≤ l.length) :
    ((l.drop k).take time_window_steps).headD 0 = l.getD k 0 ∧
    ((l.drop k).take time_window_steps).getLastD 0
      = l.getD (k + time_window_steps - 1) 0 := by
  have htw : 0 < time_window_steps := time_window_steps_pos
  have hlen : ((l.drop k).take time_window_steps).length = time_window_steps := by
    rw [List.length_take, List.length_drop]
    omega
  constructor
  · rw [List.headD_eq_head?_getD, List.head?_eq_getElem?,
      List.getElem?_take_of_lt htw, List.getElem?_drop,
      List.getD_eq_getElem?_getD]
    simp
  · rw [List.getLastD_eq_getLast?, List.getLast?_eq_getElem?, hlen,
      List.getElem?_take_of_lt (by omega), List.getElem?_drop,
      List.getD_eq_getElem?_getD]
    have hidx : k + (time_window_steps - 1) = k + time_window_steps - 1 := by
      omega
    rw [hidx]

/-- The source windowed sample agrees with the spec's
`(exits[start + L − 1] − exits[start]) / (L·dt)` form on full windows. -/
theorem windowSample_eq_spec (exits : List ℤ) (k : ℕ)
    (h : k + time_window_steps ≤ exits.length) :
    windowSample exits k = specWindowSample exits k := by
  obtain ⟨h1, h2⟩ := window_headD_getLastD exits k h
  simp only [windowSample, specWindowSample]
  rw [h1, h2]

/-- The index arithmetic of the source loop produces exactly the spec's
window starts. -/
theorem windowStarts_eq_spec (n : ℕ) :
    windowStarts n = specWindowStarts n := by
  have hlt1 : List.Pairwise (· < ·) (windowStarts n) := by
    unfold windowStarts pyRangeL
    exact List.pairwise_lt_range' _ _ _ time_steps_pos
  have hlt2 : List.Pairwise (· < ·) (specWindowStarts n) := by
    unfold specWindowStarts
    exact (List.pairwise_lt_range _).filter _
  have hmem : ∀ a, a ∈ windowStarts n ↔ a ∈ specWindowStarts n := by
    intro a
    rw [mem_windowStarts]
    unfold specWindowStarts
    rw [List.mem_filter, List.mem_range, Bool.and_eq_true,
      decide_eq_true_eq, decide_eq_true_eq, Nat.dvd_iff_mod_eq_zero]
    have htw := time_window_steps_pos
    constructor
    · rintro ⟨h1, h2⟩
      exact ⟨by omega, h1, h2⟩
    · rintro ⟨h0, h1, h2⟩
      exact ⟨h1, h2⟩
  have hperm := (List.perm_ext_iff_of_nodup
    (hlt1.imp (fun h => Nat.ne_of_lt h))
    (hlt2.imp (fun h => Nat.ne_of_lt h))).mpr hmem
  exact List.eq_of_perm_of_sorted hperm
    (hlt1.imp (fun h => Nat.le_of_lt h))
    (hlt2.imp (fun h => Nat.le_of_lt h))

/-! ## C2 — the estimator equals its reference definition -/

/-- CLAIM C2: the source estimator coincides with the reference
definition written from the spec's words: the window starts are the
indices `0, step, 2·step, ...` with `start + window_length ≤ len(times)`
(sliding over the entire parsed series), the recorded window time is
`start · dt`, each sample is
`(exits[start + L − 1] − exits[start]) / (L · dt)`, and the trial's
scalar flow rate is the arithmetic mean of the produced samples. -/
theorem c2_estimator_matches_reference (times : List ℚ) (exits : List ℤ)
    (hlen : times.length = exits.length) :
    windowStarts times.length = specWindowStarts times.length ∧
    flowSamples times exits = specFlowSamples times exits ∧
    sampleTimes times = specSampleTimes times ∧
    trialFlowRate times exits = npMean (specFlowSamples times exits) := by
  have hs := windowStarts_eq_spec times.length
  have hfs : flowSamples times exits = specFlowSamples times exits := by
    unfold flowSamples specFlowSamples
    rw [← hs]
    apply List.map_congr_left
    intro k hk
    rw [mem_windowStarts] at hk
    exact windowSample_eq_spec exits k (by omega)
  refine ⟨hs, hfs, ?_, ?_⟩
  · unfold sampleTimes specSampleTimes
    rw [hs]
  · unfold trialFlowRate
    rw [hfs]

/-- Witness for C2 on a concrete 400-entry log. -/
theorem c2_estimator_matches_reference_witness :
    windowStarts (uniformTimes 400).length
        = specWindowStarts (uniformTimes 400).length ∧
    flowSamples (uniformTimes 400) (idExits 400)
        = specFlowSamples (uniformTimes 400) (idExits 400) ∧
    sampleTimes (uniformTimes 400) = specSampleTimes (uniformTimes 400) ∧
    trialFlowRate (uniformTimes 400) (idExits 400)
        = npMean (specFlowSamples (uniformTimes 400) (idExits 400)) :=
  c2_estimator_matches_reference (uniformTimes 400) (idExits 400)
    (by rw [uniformTimes, idExits, List.length_map, List.length_map])

/-! ## Bound lookups and sample production (shared by C1 and C5) -/

theorem npWhereFirst_isSome_iff (p : α → Bool) (l : List α) :
    (npWhereFirst p l).isSome ↔ ∃ a ∈ l, p a = true := by
  induction l with
  | nil => simp [npWhereFirst]
  | cons a as ih =>
    by_cases hp : p a
    · simp [npWhereFirst, hp]
    · simp [npWhereFirst, hp, ih]

theorem lowerBoundIdx_isSome (times : List ℚ)
    (h : ∃ t ∈ times, (10 : ℚ) ≤ t) : (lowerBoundIdx times).isSome := by
  rw [lowerBoundIdx, npWhereFirst_isSome_iff]
  obtain ⟨t, ht, h10⟩ := h
  exact ⟨t, ht, by simpa using h10⟩

theorem upperBoundIdx_isSome (times : List ℚ)
    (h : ∃ t ∈ times, t ≤ (45 : ℚ)) : (upperBoundIdx times).isSome := by
  rw [upperBoundIdx, npWhereLast, Option.isSome_map',
    npWhereFirst_isSome_iff]
  obtain ⟨t, ht, h45⟩ := h
  exact ⟨t, by simpa using ht, by simpa using h45⟩

/-- When both bound lookups succeed, the trial returns the full windowed
series (the looked-up bounds are never used). -/
theorem runTrial_eq (times : List ℚ) (exits : List ℤ)
    (h10 : ∃ t ∈ times, (10 : ℚ) ≤ t) (h45 : ∃ t ∈ times, t ≤ (45 : ℚ)) :
    runTrial times exits = some (flowSamples times exits) := by
  obtain ⟨i, hi⟩ := Option.isSome_iff_exists.mp (lowerBoundIdx_isSome times h10)
  obtain ⟨j, hj⟩ := Option.isSome_iff_exists.mp (upperBoundIdx_isSome times h45)
  simp [runTrial, hi, hj]

/-- At least one window is produced as soon as the series is at least one
window long. -/
theorem flowSamples_ne_nil (times : List ℚ) (exits : List ℤ)
    (hlen : time_window_steps ≤ times.length) :
    flowSamples times exits ≠ [] := by
  unfold flowSamples
  rw [ne_eq, List.map_eq_nil_iff]
  intro hnil
  have h0 : 0 ∈ windowStarts times.length :=
    (mem_windowStarts _ 0).mpr ⟨dvd_zero _, by omega⟩
  rw [hnil] at h0
  exact List.not_mem_nil _ h0

/-! ## C5 — the [10,45] interval does not gate sample production -/

/-- CLAIM C5 (counterexample): `gapTimes` has no entry in `[10, 45]`, yet
the estimator produces a non-empty windowed sample series for it — the
stationary bounds located at lines 102-103 are never used by the window
loop. -/
theorem c5_counterexample :
    (∀ t ∈ gapTimes, ¬((10 : ℚ) ≤ t ∧ t ≤ 45)) ∧
    ∃ l, runTrial gapTimes (idExits 400) = some l ∧ l ≠ [] := by
  constructor
  · intro t ht
    unfold gapTimes at ht
    rw [List.mem_append] at ht
    rcases ht with h | h
    · obtain ⟨i, hi, rfl⟩ := List.mem_map.mp h
      rw [List.mem_range] at hi
      rintro ⟨ha, -⟩
      have hc : (i : ℚ) ≤ 9 := by
        have hc9 : i ≤ 9 := by omega
        exact_mod_cast hc9
      linarith
    · obtain ⟨i, hi, rfl⟩ := List.mem_map.mp h
      rintro ⟨-, hb⟩
      have hc : (0 : ℚ) ≤ (i : ℚ) := by positivity
      linarith
  · have h10 : ∃ t ∈ gapTimes, (10 : ℚ) ≤ t := by
      refine ⟨46 + ((0 : ℕ) : ℚ), ?_, by push_cast; norm_num⟩
      unfold gapTimes
      rw [List.mem_append]
      exact Or.inr (List.mem_map.mpr ⟨0, by simp, rfl⟩)
    have h45 : ∃ t ∈ gapTimes, t ≤ (45 : ℚ) := by
      refine ⟨((0 : ℕ) : ℚ), ?_, by push_cast; norm_num⟩
      unfold gapTimes
      rw [List.mem_append]
      exact Or.inl (List.mem_map.mpr ⟨0, by simp, rfl⟩)
    have hlen : time_window_steps ≤ gapTimes.length := by
      rw [time_window_steps_eq]
      unfold gapTimes
      rw [List.length_append, List.length_map, List.length_map,
        List.length_range, List.length_range]
    exact ⟨flowSamples gapTimes (idExits 400),
      runTrial_eq _ _ h10 h45, flowSamples_ne_nil _ _ hlen⟩

/-- CLAIM C5 (amended): sample production is *not* gated on the
stationary interval: whenever the log has some time `≥ 10`, some time
`≤ 45` (so the two unused bound lookups of lines 102-103 do not raise),
and at least `time_window_steps` entries, the estimator produces a
non-empty sample series — even when no log time lies inside `[10, 45]`.
Samples are absent only when the parsed series is shorter than one
window or a bound lookup raises. -/
theorem c5_samples_not_gated_by_interval (times : List ℚ) (exits : List ℤ)
    (h10 : ∃ t ∈ times, (10 : ℚ) ≤ t) (h45 : ∃ t ∈ times, t ≤ (45 : ℚ))
    (hlen : time_window_steps ≤ times.length) :
    ∃ l, runTrial times exits = some l ∧ l ≠ [] :=
  ⟨flowSamples times exits, runTrial_eq times exits h10 h45,
    flowSamples_ne_nil times exits hlen⟩

/-- Witness for the amended C5 at the log `gapTimes`, which avoids
`[10, 45]` entirely. -/
theorem c5_samples_not_gated_by_interval_witness :
    ∃ l, runTrial gapTimes (idExits 400) = some l ∧ l ≠ [] := by
  refine c5_samples_not_gated_by_interval gapTimes (idExits 400)
    ⟨46 + ((0 : ℕ) : ℚ), ?_, by push_cast; norm_num⟩
    ⟨((0 : ℕ) : ℚ), ?_, by push_cast; norm_num⟩ ?_
  · unfold gapTimes
    rw [List.mem_append]
    exact Or.inr (List.mem_map.mpr ⟨0, by simp, rfl⟩)
  · unfold gapTimes
    rw [List.mem_append]
    exact Or.inl (List.mem_map.mpr ⟨0, by simp, rfl⟩)
  · rw [time_window_steps_eq]
    unfold gapTimes
    rw [List.length_append, List.length_map, List.length_map,
      List.length_range, List.length_range]

/-! ## C1 — the constant-rate sanity value is 39.9, not 40 -/

theorem idExits_getD (n j : ℕ) (h : j < n) :
    (idExits n).getD j 0 = (j : ℤ) := by
  rw [List.getD_eq_getElem?_getD]
  unfold idExits
  rw [List.getElem?_map, List.getElem?_range h]
  rfl

/-- On the `exits[i] = i` log every full window's sample is
`399 / 10 = 39.9`. -/
theorem windowSample_idExits (n k : ℕ) (h : k + time_window_steps ≤ n) :
    windowSample (idExits n) k = 399 / 10 := by
  have htw := time_window_steps_pos
  have hel : (idExits n).length = n := by
    unfold idExits
    rw [List.length_map, List.length_range]
  obtain ⟨h1, h2⟩ := window_headD_getLastD (idExits n) k (by omega)
  simp only [windowSample]
  rw [h1, h2, idExits_getD n k (by omega),
    idExits_getD n (k + time_window_steps - 1) (by omega),
    time_window_steps_eq, dt_eq]
  have hidx : k + 400 - 1 = k + 399 := by omega
  rw [hidx]
  push_cast
  ring_nf

/-- The 401-entry uniform log yields exactly one window, whose sample is
`399 / 10`. -/
theorem flowSamples_uniform401 :
    flowSamples (uniformTimes 401) (idExits 401) = [399 / 10] := by
  have hl : (uniformTimes 401).length = 401 := by
    unfold uniformTimes
    rw [List.length_map, List.length_range]
  unfold flowSamples
  rw [hl]
  have hws : windowStarts 401 = [0] := by
    unfold windowStarts pyRangeL
    rw [time_window_steps_eq, time_steps_eq]
    decide
  rw [hws, List.map_cons, List.map_nil,
    windowSample_idExits 401 0 (by rw [time_window_steps_eq]; norm_num)]

/-- CLAIM C1 (counterexample): on the 401-entry log with `exits[i] = i`
at uniform `dt` spacing the estimator produces the single sample
`399/10 = 39.9`, which differs from the claimed `1/dt = 40`. -/
theorem c1_counterexample :
    runTrial (uniformTimes 401) (idExits 401) = some [399 / 10] ∧
    (399 / 10 : ℚ) ≠ 1 / dt := by
  constructor
  · have h10 : ∃ t ∈ uniformTimes 401, (10 : ℚ) ≤ t := by
      refine ⟨((400 : ℕ) : ℚ) * dt, ?_, by rw [dt_eq]; push_cast; norm_num⟩
      unfold uniformTimes
      exact List.mem_map.mpr ⟨400, by simp, rfl⟩
    have h45 : ∃ t ∈ uniformTimes 401, t ≤ (45 : ℚ) := by
      refine ⟨((0 : ℕ) : ℚ) * dt, ?_, by rw [dt_eq]; push_cast; norm_num⟩
      unfold uniformTimes
      exact List.mem_map.mpr ⟨0, by simp, rfl⟩
    rw [runTrial_eq _ _ h10 h45, flowSamples_uniform401]
  · rw [dt_eq]
    norm_num

/-- CLAIM C1 (amended): for a log with `exits[i] = i` at uniform `dt`
spacing, every windowed flow-rate sample equals
`(window_length − 1) / (window_length · dt) = 399/10 = 39.9` people per
second — an off-by-one from the claimed `1/dt = 40`, because the window
difference `exits[k+399] − exits[k]` spans only 399 sample intervals but
is divided by `400 · dt = 10` seconds. -/
theorem c1_constant_rate_sample_value (n : ℕ) (s : ℚ)
    (hs : s ∈ flowSamples (uniformTimes n) (idExits n)) :
    s = 399 / 10 := by
  unfold flowSamples at hs
  rw [List.mem_map] at hs
  obtain ⟨k, hk, rfl⟩ := hs
  have hl : (uniformTimes n).length = n := by
    unfold uniformTimes
    rw [List.length_map, List.length_range]
  rw [hl, mem_windowStarts] at hk
  exact windowSample_idExits n k hk.2

/-- Witness for the amended C1 at the 401-entry uniform log. -/
theorem c1_constant_rate_sample_value_witness :
    (399 / 10 : ℚ) ∈ flowSamples (uniformTimes 401) (idExits 401) ∧
    (399 / 10 : ℚ) = 399 / 10 :=
  ⟨by rw [flowSamples_uniform401]; exact List.mem_singleton_self _,
   c1_constant_rate_sample_value 401 (399 / 10)
     (by rw [flowSamples_uniform401]; exact List.mem_singleton_self _)⟩

/-! ## C8 — cross-trial aligner machinery -/

theorem npWhereFirst_mem (p : α → Bool) (l : List α) (i : ℕ)
    (h : npWhereFirst p l = some i) :
    ∃ a, l[i]? = some a ∧ p a = true := by
  induction l generalizing i with
  | nil => simp [npWhereFirst] at h
  | cons x as ih =>
    rw [npWhereFirst] at h
    by_cases hp : p x
    · rw [if_pos hp] at h
      injection h with h
      subst h
      exact ⟨x, List.getElem?_cons_zero, hp⟩
    · rw [if_neg hp] at h
      rcases hE : npWhereFirst p as with _ | i0 <;> rw [hE] at h
      · simp at h
      · rw [Option.map_some'] at h
        injection h with h
        subst h
        obtain ⟨a, ha, hpa⟩ := ih i0 hE
        exact ⟨a, by simpa using ha, hpa⟩

theorem npWhereFirst_min (p : α → Bool) (l : List α) (j : ℕ) (a : α)
    (hj : l[j]? = some a) (hpa : p a = true) :
    ∃ i, npWhereFirst p l = some i ∧ i ≤ j := by
  induction l generalizing j with
  | nil => simp at hj
  | cons x as ih =>
    by_cases hp : p x
    · exact ⟨0, by rw [npWhereFirst, if_pos hp], Nat.zero_le _⟩
    · cases j with
      | zero =>
        rw [List.getElem?_cons_zero] at hj
        injection hj with hj
        subst hj
        exact absurd hpa (by simp [hp])
      | succ j0 =>
        rw [List.getElem?_cons_succ] at hj
        obtain ⟨i0, hi0, hle⟩ := ih j0 hj
        refine ⟨i0 + 1, ?_, by omega⟩
        rw [npWhereFirst, if_neg hp, hi0, Option.map_some']

/-- A trial that reaches the checkpoint yields a time for it. -/
theorem trialTimeAt_some (times : List ℚ) (exits : List ℤ) (c : ℕ)
    (hlen : times.length = exits.length) (j : ℕ) (a : ℤ)
    (hj : exits[j]? = some a) (hc : (c : ℤ) ≤ a) :
    ∃ t, trialTimeAt times exits c = some t := by
  obtain ⟨i, hi, hle⟩ :=
    npWhereFirst_min (fun e => decide ((c : ℤ) ≤ e)) exits j a hj
      (by simpa using hc)
  obtain ⟨b, hb, hpb⟩ := npWhereFirst_mem _ exits i hi
  obtain ⟨hilt, -⟩ := List.getElem?_eq_some.mp hb
  have hilt2 : i < times.length := by omega
  exact ⟨times[i], by simp [trialTimeAt, hi, List.getElem?_eq_getElem hilt2]⟩

/-- For a trial with non-decreasing times, a higher checkpoint resolves
to a time no earlier than a lower one. -/
theorem trialTimeAt_mono (times : List ℚ) (exits : List ℤ) (c1 c2 : ℕ)
    (hc : c1 ≤ c2) (hsorted : times.Chain' (· ≤ ·)) (t2 : ℚ)
    (h2 : trialTimeAt times exits c2 = some t2) :
    ∃ t1, trialTimeAt times exits c1 = some t1 ∧ t1 ≤ t2 := by
  rcases hE2 : npWhereFirst (fun e => decide ((c2 : ℤ) ≤ e)) exits with _ | i2
  · simp [trialTimeAt, hE2] at h2
  · have ht2 : times[i2]? = some t2 := by
      simpa [trialTimeAt, hE2] using h2
    obtain ⟨a2, ha2, hpa2⟩ := npWhereFirst_mem _ exits i2 hE2
    have hp1 : decide ((c1 : ℤ) ≤ a2) = true := by
      rw [decide_eq_true_eq] at hpa2 ⊢
      have hcz : (c1 : ℤ) ≤ (c2 : ℤ) := by exact_mod_cast hc
      omega
    obtain ⟨i1, hi1, hle⟩ :=
      npWhereFirst_min (fun e => decide ((c1 : ℤ) ≤ e)) exits i2 a2 ha2 hp1
    obtain ⟨hi2lt, ht2v⟩ := List.getElem?_eq_some.mp ht2
    have hi1lt : i1 < times.length := by omega
    refine ⟨times[i1],
      by simp [trialTimeAt, hi1, List.getElem?_eq_getElem hi1lt], ?_⟩
    have hpair := List.chain'_iff_pairwise.mp hsorted
    rcases Nat.lt_or_ge i1 i2 with hlt | hge
    · have := List.pairwise_iff_getElem.mp hpair i1 i2 hi1lt hi2lt hlt
      rw [← ht2v]
      exact this
    · have hieq : i1 = i2 := by omega
      subst hieq
      rw [← ht2v]

theorem mapOpt_some_of_forall (f : α → Option β) (l : List α)
    (h : ∀ a ∈ l, ∃ b, f a = some b) : ∃ bs, mapOpt f l = some bs := by
  induction l with
  | nil => exact ⟨[], rfl⟩
  | cons a as ih =>
    obtain ⟨b, hb⟩ := h a (by simp)
    obtain ⟨bs, hbs⟩ := ih (fun x hx => h x (List.mem_cons_of_mem _ hx))
    exact ⟨b :: bs, by simp [mapOpt, hb, hbs]⟩

theorem mapOpt_forall₂ (f : α → Option β) (l : List α) (bs : List β)
    (h : mapOpt f l = some bs) :
    List.Forall₂ (fun a b => f a = some b) l bs := by
  induction l generalizing bs with
  | nil =>
    rw [mapOpt] at h
    injection h with h
    subst h
    exact List.Forall₂.nil
  | cons a as ih =>
    rw [mapOpt] at h
    rcases hf : f a with _ | b <;> rw [hf] at h
    · rw [Option.none_bind] at h
      exact Option.noConfusion h
    · rw [Option.some_bind] at h
      rcases hm : mapOpt f as with _ | bs' <;> rw [hm] at h
      · rw [Option.map_none'] at h
        exact Option.noConfusion h
      · rw [Option.map_some'] at h
        injection h with h
        subst h
        exact List.Forall₂.cons hf (ih bs' hm)

theorem forall₂_sum_le (l1 l2 : List ℚ)
    (h : List.Forall₂ (· ≤ ·) l1 l2) : l1.sum ≤ l2.sum := by
  induction h with
  | nil => exact le_refl _
  | cons hab h2 ih =>
    rw [List.sum_cons, List.sum_cons]
    exact add_le_add hab ih

theorem forall₂_pair {P Q : α → β → Prop} {R : β → β → Prop} :
    ∀ {l : List α} {l1 l2 : List β}, List.Forall₂ P l l1 →
      List.Forall₂ Q l l2 →
      (∀ a ∈ l, ∀ b1 b2, P a b1 → Q a b2 → R b1 b2) →
      List.Forall₂ R l1 l2 := by
  intro l l1 l2 h1
  induction h1 generalizing l2 with
  | nil =>
    intro h2 _
    cases h2
    exact List.Forall₂.nil
  | @cons a b as bs hab h1t ih =>
    intro h2 hpq
    cases h2 with
    | @cons _ b2 _ bs2 hab2 h2t =>
      exact List.Forall₂.cons (hpq a (by simp) b b2 hab hab2)
        (ih h2t (fun x hx y1 y2 p q =>
          hpq x (List.mem_cons_of_mem _ hx) y1 y2 p q))

theorem chain'_of_forall₂ {P : ℕ → ℚ → Prop} :
    ∀ {l : List ℕ} {m : List ℚ}, List.Forall₂ P l m →
      List.Chain' (· ≤ ·) l →
      (∀ a1 ∈ l, ∀ a2 ∈ l, a1 ≤ a2 →
        ∀ b1 b2, P a1 b1 → P a2 b2 → b1 ≤ b2) →
      List.Chain' (· ≤ ·) m := by
  intro l m h
  induction h with
  | nil =>
    intro _ _
    exact List.chain'_nil
  | @cons a b as bs hab ht ih =>
    intro hc mono
    refine List.chain'_cons'.mpr ⟨?_, ?_⟩
    · intro y hy
      cases ht with
      | nil => simp at hy
      | @cons a2 b2 as2 bs2 hab2 ht2 =>
        rw [List.head?_cons, Option.mem_some_iff] at hy
        subst hy
        have haa : a ≤ a2 := (List.chain'_cons.mp hc).1
        exact mono a (by simp) a2 (by simp) haa b b2 hab hab2
    · refine ih hc.tail ?_
      intro a1 h1 a2 h2 hle b1 b2 p1 p2
      exact mono a1 (List.mem_cons_of_mem _ h1) a2
        (List.mem_cons_of_mem _ h2) hle b1 b2 p1 p2

/-- Every checkpoint is at most the largest produced checkpoint. -/
theorem checkpoint_le_max (pop : ℕ) (hpop : 20 ≤ pop) (c : ℕ)
    (hc : c ∈ pyRangeL ((pop : ℤ) + 1) (pop / 20)) :
    c ≤ maxCheckpoint pop := by
  have hstep : 0 < pop / 20 := (Nat.one_le_div_iff (by norm_num)).mpr hpop
  obtain ⟨⟨k, rfl⟩, hlt⟩ := (mem_pyRangeL_iff _ _ hstep _).mp hc
  have hle : pop / 20 * k ≤ pop := by omega
  have hcomm : k * (pop / 20) = pop / 20 * k := by ring
  have hk : k ≤ pop / (pop / 20) :=
    (Nat.le_div_iff_mul_le hstep).mpr (by omega)
  unfold maxCheckpoint
  exact Nat.mul_le_mul_left _ hk

/-! ## C8 — checkpoint mean times are monotone -/

/-- CLAIM C8: for a configuration with `population_size ≥ 20` and at
least one trial, if every trial's log has matching array lengths,
non-decreasing times and non-decreasing cumulative exits, and every trial
reaches the maximum checkpoint, then the aligner produces its
per-checkpoint mean times and they are monotonically non-decreasing in
the checkpoint. -/
theorem c8_checkpoint_means_monotone (trials : List (List ℚ × List ℤ))
    (pop : ℕ) (hpop : 20 ≤ pop) (hne : trials ≠ [])
    (hlen : ∀ tr ∈ trials, (tr.1 : List ℚ).length = (tr.2 : List ℤ).length)
    (htimes : ∀ tr ∈ trials, (tr.1 : List ℚ).Chain' (· ≤ ·))
    (_hexits : ∀ tr ∈ trials, (tr.2 : List ℤ).Chain' (· ≤ ·))
    (hreach : ∀ tr ∈ trials, ∃ (j : ℕ) (a : ℤ), tr.2[j]? = some a ∧
      (maxCheckpoint pop : ℤ) ≤ a) :
    ∃ ms, checkpointMeans trials pop = some ms ∧
      ms.Chain' (· ≤ ·) := by
  have hstep : 0 < pop / 20 := (Nat.one_le_div_iff (by norm_num)).mpr hpop
  have hcp := checkpoints_eq_of_ge pop hpop
  have hchain_cps :
      (pyRangeL ((pop : ℤ) + 1) (pop / 20)).Chain' (· ≤ ·) := by
    unfold pyRangeL
    exact (List.pairwise_le_range' _ _ _).chain'
  -- every checkpoint's mean is produced
  have hsome_mean : ∀ c ∈ pyRangeL ((pop : ℤ) + 1) (pop / 20),
      ∃ m, (mapOpt (fun tr => trialTimeAt tr.1 tr.2 c) trials).map npMean
        = some m := by
    intro c hc
    have hall : ∀ tr ∈ trials, ∃ t, trialTimeAt tr.1 tr.2 c = some t := by
      intro tr htr
      obtain ⟨j, a, hja, ha⟩ := hreach tr htr
      have hca : (c : ℤ) ≤ a := by
        have hcm : c ≤ maxCheckpoint pop := checkpoint_le_max pop hpop c hc
        have hcz : (c : ℤ) ≤ (maxCheckpoint pop : ℤ) := by exact_mod_cast hcm
        omega
      exact trialTimeAt_some tr.1 tr.2 c (hlen tr htr) j a hja hca
    obtain ⟨ts, hts⟩ := mapOpt_some_of_forall _ trials hall
    exact ⟨npMean ts, by rw [hts, Option.map_some']⟩
  -- means are monotone in the checkpoint
  have hmono_mean : ∀ c1 ∈ pyRangeL ((pop : ℤ) + 1) (pop / 20),
      ∀ c2 ∈ pyRangeL ((pop : ℤ) + 1) (pop / 20), c1 ≤ c2 →
      ∀ m1 m2,
        (mapOpt (fun tr => trialTimeAt tr.1 tr.2 c1) trials).map npMean
          = some m1 →
        (mapOpt (fun tr => trialTimeAt tr.1 tr.2 c2) trials).map npMean
          = some m2 →
        m1 ≤ m2 := by
    intro c1 _ c2 _ hle m1 m2 h1 h2
    obtain ⟨ts1, hts1, hm1⟩ := Option.map_eq_some'.mp h1
    obtain ⟨ts2, hts2, hm2⟩ := Option.map_eq_some'.mp h2
    subst hm1
    subst hm2
    have hf1 := mapOpt_forall₂ _ trials ts1 hts1
    have hf2 := mapOpt_forall₂ _ trials ts2 hts2
    have hle12 : List.Forall₂ (· ≤ ·) ts1 ts2 := by
      refine forall₂_pair hf1 hf2 ?_
      intro tr htr b1 b2 p1 p2
      obtain ⟨t1, ht1, htle⟩ :=
        trialTimeAt_mono tr.1 tr.2 c1 c2 hle (htimes tr htr) b2 p2
      rw [p1] at ht1
      injection ht1 with ht1
      subst ht1
      exact htle
    have hsum := forall₂_sum_le ts1 ts2 hle12
    have hlen1 : ts1.length = trials.length := hf1.length_eq.symm
    have hlen2 : ts2.length = trials.length := hf2.length_eq.symm
    have hpos : (0 : ℚ) < trials.length := by
      have := List.length_pos.mpr hne
      exact_mod_cast this
    unfold npMean
    rw [hlen1, hlen2]
    exact (div_le_div_iff_of_pos_right hpos).mpr hsum
  obtain ⟨ms, hms⟩ :=
    mapOpt_some_of_forall _ (pyRangeL ((pop : ℤ) + 1) (pop / 20)) hsome_mean
  refine ⟨ms, ?_, ?_⟩
  · rw [checkpointMeans, hcp]
    simpa using hms
  · exact chain'_of_forall₂ (mapOpt_forall₂ _ _ ms hms) hchain_cps
      (fun a1 h1 a2 h2 hle b1 b2 p1 p2 =>
        hmono_mean a1 h1 a2 h2 hle b1 b2 p1 p2)

/-- Witness for C8: one trial with `times[i] = i`, `exits[i] = i` over
`0..20` and `population_size = 20`. -/
theorem c8_checkpoint_means_monotone_witness :
    ∃ ms, checkpointMeans
        [((List.range 21).map (fun i : ℕ => (i : ℚ)),
          (List.range 21).map (fun i : ℕ => (i : ℤ)))] 20 = some ms ∧
      ms.Chain' (· ≤ ·) := by
  refine c8_checkpoint_means_monotone _ 20 (by norm_num) (by simp)
    ?_ ?_ ?_ ?_
  · intro tr htr
    rw [List.mem_singleton] at htr
    subst htr
    rw [List.length_map, List.length_map]
  · intro tr htr
    rw [List.mem_singleton] at htr
    subst htr
    exact (List.Pairwise.map _
      (fun a b h => by exact_mod_cast h)
      (List.pairwise_le_range 21)).chain'
  · intro tr htr
    rw [List.mem_singleton] at htr
    subst htr
    exact (List.Pairwise.map _
      (fun a b h => by exact_mod_cast h)
      (List.pairwise_le_range 21)).chain'
  · intro tr htr
    rw [List.mem_singleton] at htr
    subst htr
    exact ⟨20, 20, by decide, by decide⟩

end FlowRate
